import Mathlib

/-!
Verification of the sequence-merge engine and session manager of the
real-time collaborative text-editing backend (`src/main.py`).

The Python classes `CRDTChar`, `CRDTDocument` and `DocumentManager` are
shallowly embedded: Python lists become Lean lists, the `visible` flag is a
`Bool`, dictionaries become association lists, and the asynchronous
broadcast loop becomes explicit state passing with a delivery log.
-/

/-- Embeds `CRDTChar` (`src/main.py` lines 9-16): a character node with a
unique id, a character payload and a `visible` flag (`visible = false` is a
tombstone). -/
structure CRDTChar where
  id : String
  char : String
  visible : Bool
deriving Repr, DecidableEq

/-- Embeds `CRDTDocument` (`src/main.py` lines 19-57): the ordered list of
all character nodes ever inserted, live and tombstoned. -/
structure CRDTDocument where
  chars : List CRDTChar
deriving Repr, DecidableEq

/-- The empty document produced by `CRDTDocument.__init__`. -/
def CRDTDocument.empty : CRDTDocument := ⟨[]⟩

/-- Embeds `CRDTDocument.to_snapshot` (lines 23-25): the ordered list of
`{id, char, visible}` dictionaries. -/
def to_snapshot (doc : CRDTDocument) : List (String × String × Bool) :=
  doc.chars.map (fun c => (c.id, c.char, c.visible))

/-- Embeds the anchor-search loop of `merge_insert` (lines 40-48): scan for
the first node whose id equals `after_id` and insert `nc` immediately after
it; if no node matches, append `nc` at the end. -/
def insertAfter (after_id : String) (nc : CRDTChar) : List CRDTChar → List CRDTChar
  | [] => [nc]
  | c :: rest =>
      if c.id = after_id then c :: nc :: rest
      else c :: insertAfter after_id nc rest

/-- Embeds `CRDTDocument.merge_insert` (lines 27-48): duplicate ids are
suppressed; a `none` anchor inserts at the front; otherwise the new node
goes immediately after the anchor, falling back to appending at the end
when the anchor id is absent. -/
def merge_insert (doc : CRDTDocument) (op_id : String) (ch : String)
    (after_id : Option String) : CRDTDocument :=
  if doc.chars.any (fun c => c.id = op_id) then doc
  else
    let new_char : CRDTChar := ⟨op_id, ch, true⟩
    match after_id with
    | none => ⟨new_char :: doc.chars⟩
    | some a => ⟨insertAfter a new_char doc.chars⟩

/-- Embeds the loop of `merge_delete` (lines 50-54): clear the `visible`
flag of the first node whose id matches, then stop; if none matches, leave
the list unchanged. -/
def deleteFirst (op_id : String) : List CRDTChar → List CRDTChar
  | [] => []
  | c :: rest =>
      if c.id = op_id then { c with visible := false } :: rest
      else c :: deleteFirst op_id rest

/-- Embeds `CRDTDocument.merge_delete` (lines 50-54). -/
def merge_delete (doc : CRDTDocument) (op_id : String) : CRDTDocument :=
  ⟨deleteFirst op_id doc.chars⟩

/-- Embeds `CRDTDocument.get_text` (lines 56-57): concatenation of the
characters of the visible nodes, in sequence order. -/
def get_text (doc : CRDTDocument) : String :=
  String.join ((doc.chars.filter (fun c => c.visible)).map (fun c => c.char))

/-- A document-level operation, as delivered to the merge engine by the
websocket loop: `merge_insert` or `merge_delete` with its arguments. -/
inductive DocOp
  | ins (op_id ch : String) (after_id : Option String)
  | del (op_id : String)
deriving Repr, DecidableEq

/-- Apply one operation to a document. -/
def applyOp (doc : CRDTDocument) : DocOp → CRDTDocument
  | DocOp.ins op_id ch after_id => merge_insert doc op_id ch after_id
  | DocOp.del op_id => merge_delete doc op_id

/-- Apply a sequence of operations, oldest first. -/
def applyOps (doc : CRDTDocument) (ops : List DocOp) : CRDTDocument :=
  ops.foldl applyOp doc

/-- The ids of a document's nodes, in sequence order. -/
def docIds (doc : CRDTDocument) : List String :=
  doc.chars.map (fun c => c.id)

/-- Presence metadata for one client: the `{"username": ..., "cursor": ...}`
dictionary kept in `DocumentManager.docs[doc_id]["clients"]` (line 64). -/
structure ClientMeta where
  username : String
  cursor : Int
deriving Repr, DecidableEq

/-- One entry of `DocumentManager.docs` (`src/main.py` lines 60-70): the
document, the set of attached websockets (modelled as a list of socket
handles), and the `clients` dictionary mapping client id to presence
metadata (modelled as an association list in insertion order). Client
identifiers are modelled as strings; the empty string plays the role of the
`""` placeholder that `broadcast` passes to `disconnect` (line 109). -/
structure DocState where
  doc : CRDTDocument
  sockets : List Nat
  clients : List (String × ClientMeta)
deriving Repr, DecidableEq

/-- One user entry of the `user_list` roster built by `broadcast_users`
(lines 111-115). -/
structure UserInfo where
  id : String
  username : String
  cursor : Int
deriving Repr, DecidableEq

/-- An outbound message, as pushed onto one websocket by `send_json`. -/
inductive OutMsg
  | snapshotMsg (chars : List (String × String × Bool))
  | insertOp (id ch : String) (after : Option String)
      (client_op_id : Option String) (author : String)
  | deleteOp (id : String) (author : String)
  | cursorEvt (user_id username : String) (position : Int)
  | userList (users : List UserInfo)
  | errorMsg (msg : String)
deriving Repr, DecidableEq

/-- The roster built by `broadcast_users` from the `clients` dictionary
(lines 112-115). -/
def usersOf (st : DocState) : List UserInfo :=
  st.clients.map (fun p => ⟨p.1, p.2.username, p.2.cursor⟩)

/-- The socket-removal step of `disconnect` (lines 80-81): remove the
websocket from the socket set if it is attached. -/
def removeSocket (st : DocState) (ws : Nat) : DocState :=
  if ws ∈ st.sockets then { st with sockets := st.sockets.erase ws } else st

/-- The presence-removal step of `disconnect` (lines 82-83): delete the
`clients` entry for `client_id` if one exists. -/
def removeClient (st : DocState) (client_id : String) : DocState :=
  if st.clients.any (fun p => p.1 = client_id) then
    { st with clients := st.clients.filter (fun p => p.1 ≠ client_id) }
  else st

/-- Embeds `DocumentManager.broadcast` (lines 92-109) together with the
`disconnect` and `broadcast_users` calls it triggers (lines 78-90 and
111-116), for one document entry. `dead ws = true` models a websocket whose
`send_json` raises. The result is the updated state and the in-order log of
successful deliveries. Each send failure appends the socket to `to_remove`;
after the delivery loop each such socket is disconnected with the empty
client id, which rebroadcasts the roster, which may in turn find further
dead sockets — this nesting is bounded by `fuel`, and every nesting level
strictly shrinks the socket set, so the callers below always supply
sufficient fuel. -/
def broadcastAux (dead : Nat → Bool) : Nat → DocState → OutMsg →
    DocState × List (Nat × OutMsg)
  | 0, st, _ => (st, [])
  | fuel + 1, st, msg =>
      let delivered := (st.sockets.filter (fun ws => !dead ws)).map (fun ws => (ws, msg))
      let to_remove := st.sockets.filter (fun ws => dead ws)
      let step := fun (acc : DocState × List (Nat × OutMsg)) (ws : Nat) =>
        let st2 := removeClient (removeSocket acc.1 ws) ""
        let r := broadcastAux dead fuel st2 (OutMsg.userList (usersOf st2))
        (r.1, acc.2 ++ r.2)
      to_remove.foldl step (st, delivered)

/-- Fuel that always suffices for `broadcastAux`: one level per attached
socket plus one. -/
def broadcastFuel (st : DocState) : Nat := st.sockets.length + 1

/-- `DocumentManager.broadcast` for one document entry (lines 92-109). -/
def broadcast (dead : Nat → Bool) (st : DocState) (msg : OutMsg) :
    DocState × List (Nat × OutMsg) :=
  broadcastAux dead (broadcastFuel st) st msg

/-- Embeds `DocumentManager.disconnect` (lines 78-90) for one document
entry: detach the socket, drop the presence entry for `client_id`, then
broadcast the updated roster. -/
def disconnect (dead : Nat → Bool) (st : DocState) (ws : Nat)
    (client_id : String) : DocState × List (Nat × OutMsg) :=
  let st2 := removeClient (removeSocket st ws) client_id
  broadcast dead st2 (OutMsg.userList (usersOf st2))

/-- An inbound client message, after JSON decoding, keyed by its `type`
field (lines 137-186): the three recognized kinds and a catch-all for every
other `type`. For `cursorPos`, `position` already carries the
`msg.get("position", 0)` default of line 173. -/
inductive InMsg
  | insertMsg (ch : String) (after : Option String) (client_op_id : Option String)
  | deleteMsg (id : String)
  | cursorPos (position : Int)
  | otherMsg (mtype : String)
deriving Repr, DecidableEq

/-- One iteration of the websocket receive loop of `websocket_endpoint`
(lines 135-186), for the document entry `st`: dispatch on the message type,
mutate the document and presence state, and deliver the outbound messages.
`server_id` stands for the fresh `uuid.uuid4()` the server assigns to an
insert (line 146). Returns the new state, the log of successful sends, and
`true` when the loop continues to the next `receive_json` — `false` models
the direct error reply to the sender raising, which runs the `disconnect`
cleanup of lines 187-191 and ends the loop. -/
def handleMessage (dead : Nat → Bool) (st : DocState) (websocket : Nat)
    (client_id username server_id : String) :
    InMsg → DocState × List (Nat × OutMsg) × Bool
  | InMsg.insertMsg ch after client_op_id =>
      let op := OutMsg.insertOp server_id ch after client_op_id client_id
      let st1 := { st with doc := merge_insert st.doc server_id ch after }
      let r := broadcast dead st1 op
      (r.1, r.2, true)
  | InMsg.deleteMsg del_id =>
      let op := OutMsg.deleteOp del_id client_id
      let st1 := { st with doc := merge_delete st.doc del_id }
      let r := broadcast dead st1 op
      (r.1, r.2, true)
  | InMsg.cursorPos pos =>
      let st1 :=
        if st.clients.any (fun p => p.1 = client_id) then
          { st with clients :=
              st.clients.map (fun p =>
                if p.1 = client_id then (p.1, ⟨p.2.username, pos⟩) else p) }
        else st
      let r := broadcast dead st1 (OutMsg.cursorEvt client_id username pos)
      (r.1, r.2, true)
  | InMsg.otherMsg _ =>
      if dead websocket then
        let r := disconnect dead st websocket client_id
        (r.1, r.2, false)
      else
        (st, [(websocket, OutMsg.errorMsg "unknown message type")], true)

-- Basic lemmas about the anchor-search insertion loop.

theorem insertAfter_mem (after_id : String) (nc : CRDTChar) (l : List CRDTChar) :
    nc ∈ insertAfter after_id nc l := by
  induction l with
  | nil => simp [insertAfter]
  | cons c rest ih =>
      by_cases h : c.id = after_id <;> simp [insertAfter, h, ih]

theorem insertAfter_of_not_found (after_id : String) (nc : CRDTChar)
    (l : List CRDTChar) (h : ∀ c ∈ l, c.id ≠ after_id) :
    insertAfter after_id nc l = l ++ [nc] := by
  induction l with
  | nil => simp [insertAfter]
  | cons c rest ih =>
      have hc : c.id ≠ after_id := h c (by simp)
      simp only [insertAfter, if_neg hc, List.cons_append]
      exact congrArg (c :: ·) (ih (fun x hx => h x (by simp [hx])))

theorem insertAfter_of_found (after_id : String) (nc : CRDTChar)
    (l1 l2 : List CRDTChar) (anchor : CRDTChar)
    (ha : anchor.id = after_id) (h1 : ∀ c ∈ l1, c.id ≠ after_id) :
    insertAfter after_id nc (l1 ++ anchor :: l2) = l1 ++ anchor :: nc :: l2 := by
  induction l1 with
  | nil => simp [insertAfter, ha]
  | cons c rest ih =>
      have hc : c.id ≠ after_id := h1 c (by simp)
      simp only [List.cons_append, insertAfter, if_neg hc]
      exact congrArg (c :: ·) (ih (fun x hx => h1 x (by simp [hx])))

theorem insertAfter_ids_sublist (after_id : String) (nc : CRDTChar)
    (l : List CRDTChar) :
    List.Sublist (l.map (fun c => c.id))
      ((insertAfter after_id nc l).map (fun c => c.id)) := by
  induction l with
  | nil => simp [insertAfter]
  | cons c rest ih =>
      by_cases h : c.id = after_id
      · simp only [insertAfter, if_pos h, List.map_cons]
        exact List.Sublist.cons₂ _ (List.Sublist.cons _ (List.Sublist.refl _))
      · simp only [insertAfter, if_neg h, List.map_cons]
        exact List.Sublist.cons₂ _ ih

theorem insertAfter_ids_perm (after_id : String) (nc : CRDTChar)
    (l : List CRDTChar) :
    List.Perm ((insertAfter after_id nc l).map (fun c => c.id))
      (nc.id :: l.map (fun c => c.id)) := by
  induction l with
  | nil => simp [insertAfter]
  | cons c rest ih =>
      by_cases h : c.id = after_id
      · simp only [insertAfter, if_pos h, List.map_cons]
        exact List.Perm.swap _ _ _
      · simp only [insertAfter, if_neg h, List.map_cons]
        exact (ih.cons c.id).trans (List.Perm.swap _ _ _)

-- Basic lemmas about the deletion loop.

theorem deleteFirst_of_not_found (op_id : String) (l : List CRDTChar)
    (h : ∀ c ∈ l, c.id ≠ op_id) :
    deleteFirst op_id l = l := by
  induction l with
  | nil => rfl
  | cons c rest ih =>
      have hc : c.id ≠ op_id := h c (by simp)
      simp only [deleteFirst, if_neg hc]
      exact congrArg (c :: ·) (ih (fun x hx => h x (by simp [hx])))

theorem deleteFirst_of_found (op_id : String) (l1 l2 : List CRDTChar)
    (x : CRDTChar) (hx : x.id = op_id) (h1 : ∀ c ∈ l1, c.id ≠ op_id) :
    deleteFirst op_id (l1 ++ x :: l2) = l1 ++ { x with visible := false } :: l2 := by
  induction l1 with
  | nil => simp [deleteFirst, hx]
  | cons c rest ih =>
      have hc : c.id ≠ op_id := h1 c (by simp)
      simp only [List.cons_append, deleteFirst, if_neg hc]
      exact congrArg (c :: ·) (ih (fun y hy => h1 y (by simp [hy])))

theorem deleteFirst_ids (op_id : String) (l : List CRDTChar) :
    (deleteFirst op_id l).map (fun c => c.id) = l.map (fun c => c.id) := by
  induction l with
  | nil => rfl
  | cons c rest ih =>
      by_cases h : c.id = op_id <;> simp [deleteFirst, h, ih]

theorem deleteFirst_idem (op_id : String) (l : List CRDTChar) :
    deleteFirst op_id (deleteFirst op_id l) = deleteFirst op_id l := by
  induction l with
  | nil => rfl
  | cons c rest ih =>
      by_cases h : c.id = op_id
      · simp [deleteFirst, h]
      · simp [deleteFirst, h, ih]

theorem insertAfter_perm (after_id : String) (nc : CRDTChar) (l : List CRDTChar) :
    List.Perm (insertAfter after_id nc l) (nc :: l) := by
  induction l with
  | nil => exact List.Perm.refl _
  | cons c rest ih =>
      by_cases h : c.id = after_id
      · simp only [insertAfter, if_pos h]
        exact List.Perm.swap nc c rest
      · simp only [insertAfter, if_neg h]
        exact (ih.cons c).trans (List.Perm.swap nc c rest)

theorem insertAfter_map_sublist {α : Type} (f : CRDTChar → α) (after_id : String)
    (nc : CRDTChar) (l : List CRDTChar) :
    List.Sublist (l.map f) ((insertAfter after_id nc l).map f) := by
  induction l with
  | nil => simp [insertAfter]
  | cons c rest ih =>
      by_cases h : c.id = after_id
      · simp only [insertAfter, if_pos h, List.map_cons]
        exact List.Sublist.cons₂ _ (List.Sublist.cons _ (List.Sublist.refl _))
      · simp only [insertAfter, if_neg h, List.map_cons]
        exact List.Sublist.cons₂ _ ih

theorem deleteFirst_map_eq {α : Type} (f : CRDTChar → α)
    (hf : ∀ c, f { c with visible := false } = f c) (op_id : String)
    (l : List CRDTChar) : (deleteFirst op_id l).map f = l.map f := by
  induction l with
  | nil => rfl
  | cons c rest ih =>
      by_cases h : c.id = op_id
      · simp only [deleteFirst, if_pos h, List.map_cons, hf]
      · simp only [deleteFirst, if_neg h, List.map_cons, ih]

theorem mem_deleteFirst (op_id : String) (l : List CRDTChar) (x : CRDTChar)
    (hx : x ∈ deleteFirst op_id l) :
    x ∈ l ∨ ∃ y ∈ l, x = { y with visible := false } := by
  induction l with
  | nil => simp [deleteFirst] at hx
  | cons c rest ih =>
      by_cases h : c.id = op_id
      · simp only [deleteFirst, if_pos h, List.mem_cons] at hx
        rcases hx with h1 | h2
        · exact Or.inr ⟨c, by simp, h1⟩
        · exact Or.inl (List.mem_cons_of_mem c h2)
      · simp only [deleteFirst, if_neg h, List.mem_cons] at hx
        rcases hx with h1 | h2
        · exact Or.inl (h1 ▸ List.mem_cons_self c rest)
        · rcases ih h2 with h3 | ⟨y, hy, he⟩
          · exact Or.inl (List.mem_cons_of_mem c h3)
          · exact Or.inr ⟨y, List.mem_cons_of_mem c hy, he⟩

theorem any_id_eq_false {l : List CRDTChar} {i : String}
    (h : ∀ c ∈ l, c.id ≠ i) : (l.any fun c => c.id = i) = false := by
  simp only [List.any_eq_false, decide_eq_true_eq]
  exact h

theorem any_id_eq_true {l : List CRDTChar} {i : String}
    (h : ∃ c ∈ l, c.id = i) : (l.any fun c => c.id = i) = true := by
  rcases h with ⟨c, hc, he⟩
  exact List.any_eq_true.mpr ⟨c, hc, by simp [he]⟩

theorem merge_insert_of_present (doc : CRDTDocument) (op_id ch : String)
    (after_id : Option String) (h : (doc.chars.any fun c => c.id = op_id) = true) :
    merge_insert doc op_id ch after_id = doc := by
  simp [merge_insert, h]

theorem applyOp_map_sublist {α : Type} (f : CRDTChar → α)
    (hf : ∀ c, f { c with visible := false } = f c)
    (doc : CRDTDocument) (op : DocOp) :
    List.Sublist (doc.chars.map f) ((applyOp doc op).chars.map f) := by
  cases op with
  | ins op_id ch after_id =>
      by_cases h : (doc.chars.any fun c => c.id = op_id) = true
      · rw [applyOp, merge_insert_of_present _ _ _ _ h]
      · have hfalse : (doc.chars.any fun c => c.id = op_id) = false := by
          simpa using h
        cases after_id with
        | none =>
            simp only [applyOp, merge_insert, hfalse, Bool.false_eq_true,
              if_false, List.map_cons]
            exact List.Sublist.cons _ (List.Sublist.refl _)
        | some a =>
            simp only [applyOp, merge_insert, hfalse, Bool.false_eq_true, if_false]
            exact insertAfter_map_sublist f a _ doc.chars
  | del op_id =>
      show List.Sublist (doc.chars.map f) ((deleteFirst op_id doc.chars).map f)
      rw [deleteFirst_map_eq f hf]

theorem applyOps_map_sublist {α : Type} (f : CRDTChar → α)
    (hf : ∀ c, f { c with visible := false } = f c)
    (doc : CRDTDocument) (ops : List DocOp) :
    List.Sublist (doc.chars.map f) ((applyOps doc ops).chars.map f) := by
  induction ops generalizing doc with
  | nil => exact List.Sublist.refl _
  | cons op rest ih =>
      exact (applyOp_map_sublist f hf doc op).trans (ih (applyOp doc op))

theorem applyOp_nodup (doc : CRDTDocument) (op : DocOp)
    (h : (docIds doc).Nodup) : (docIds (applyOp doc op)).Nodup := by
  cases op with
  | ins op_id ch after_id =>
      by_cases hp : (doc.chars.any fun c => c.id = op_id) = true
      · rw [applyOp, merge_insert_of_present _ _ _ _ hp]; exact h
      · have hfalse : (doc.chars.any fun c => c.id = op_id) = false := by
          simpa using hp
        have hnotmem : op_id ∉ docIds doc := by
          intro hmem
          rcases List.mem_map.mp hmem with ⟨c, hc, he⟩
          have := List.any_eq_false.mp hfalse c hc
          simp [he] at this
        cases after_id with
        | none =>
            simp only [applyOp, merge_insert, hfalse, Bool.false_eq_true, if_false]
            exact List.nodup_cons.mpr ⟨hnotmem, h⟩
        | some a =>
            simp only [applyOp, merge_insert, hfalse, Bool.false_eq_true, if_false]
            have hperm : List.Perm
                ((insertAfter a ⟨op_id, ch, true⟩ doc.chars).map (fun c => c.id))
                (op_id :: doc.chars.map (fun c => c.id)) :=
              (insertAfter_perm a ⟨op_id, ch, true⟩ doc.chars).map (fun c => c.id)
            show ((insertAfter a ⟨op_id, ch, true⟩ doc.chars).map (fun c => c.id)).Nodup
            exact hperm.nodup_iff.mpr (List.nodup_cons.mpr ⟨hnotmem, h⟩)
  | del op_id =>
      have : docIds (applyOp doc (DocOp.del op_id)) = docIds doc :=
        deleteFirst_ids op_id doc.chars
      rw [this]; exact h

theorem applyOps_nodup (doc : CRDTDocument) (ops : List DocOp)
    (h : (docIds doc).Nodup) : (docIds (applyOps doc ops)).Nodup := by
  induction ops generalizing doc with
  | nil => exact h
  | cons op rest ih => exact ih (applyOp doc op) (applyOp_nodup doc op h)

theorem applyOp_tomb_step (doc : CRDTDocument) (op : DocOp) (t : String)
    (ht : t ∈ docIds doc)
    (h : ∀ x ∈ doc.chars, x.id = t → x.visible = false) :
    t ∈ docIds (applyOp doc op)
    ∧ ∀ x ∈ (applyOp doc op).chars, x.id = t → x.visible = false := by
  constructor
  · exact (applyOp_map_sublist (fun c => c.id) (fun c => rfl) doc op).subset ht
  · cases op with
    | ins op_id ch after_id =>
        by_cases hp : (doc.chars.any fun c => c.id = op_id) = true
        · rw [applyOp, merge_insert_of_present _ _ _ _ hp]; exact h
        · have hfalse : (doc.chars.any fun c => c.id = op_id) = false := by
            simpa using hp
          have hne : op_id ≠ t := by
            intro he
            rcases List.mem_map.mp ht with ⟨c, hc, hcid⟩
            have := List.any_eq_false.mp hfalse c hc
            simp [hcid, he] at this
          cases after_id with
          | none =>
              simp only [applyOp, merge_insert, hfalse, Bool.false_eq_true, if_false]
              intro x hx hxid
              rcases List.mem_cons.mp hx with h1 | h2
              · rw [h1] at hxid
                exact absurd hxid hne
              · exact h x h2 hxid
          | some a =>
              simp only [applyOp, merge_insert, hfalse, Bool.false_eq_true, if_false]
              intro x hx hxid
              have hx' : x ∈ (⟨op_id, ch, true⟩ : CRDTChar) :: doc.chars :=
                (insertAfter_perm a _ doc.chars).subset hx
              rcases List.mem_cons.mp hx' with h1 | h2
              · rw [h1] at hxid
                exact absurd hxid hne
              · exact h x h2 hxid
    | del op_id =>
        intro x hx hxid
        rcases mem_deleteFirst op_id doc.chars x hx with h1 | ⟨y, hy, he⟩
        · exact h x h1 hxid
        · rw [he]

theorem applyOps_tomb (doc : CRDTDocument) (ops : List DocOp) (t : String)
    (ht : t ∈ docIds doc)
    (h : ∀ x ∈ doc.chars, x.id = t → x.visible = false) :
    t ∈ docIds (applyOps doc ops)
    ∧ ∀ x ∈ (applyOps doc ops).chars, x.id = t → x.visible = false := by
  induction ops generalizing doc with
  | nil => exact ⟨ht, h⟩
  | cons op rest ih =>
      rcases applyOp_tomb_step doc op t ht h with ⟨ht', h'⟩
      exact ih (applyOp doc op) ht' h'

/-- C1: for a fresh `opId`, `merge_insert` places the new node first when
`afterId` is null, immediately after the first node whose id equals
`afterId` when one exists (live or tombstoned), and at the end of the
sequence when `afterId` is non-null but matches no node — the operation is
never rejected. -/
theorem merge_insert_placement (doc : CRDTDocument) (op_id ch : String)
    (hfresh : ∀ c ∈ doc.chars, c.id ≠ op_id) :
    (merge_insert doc op_id ch none).chars = ⟨op_id, ch, true⟩ :: doc.chars
    ∧ (∀ after_id l1 anchor l2, doc.chars = l1 ++ anchor :: l2 →
        anchor.id = after_id → (∀ c ∈ l1, c.id ≠ after_id) →
        (merge_insert doc op_id ch (some after_id)).chars
          = l1 ++ anchor :: (⟨op_id, ch, true⟩ : CRDTChar) :: l2)
    ∧ ∀ after_id, (∀ c ∈ doc.chars, c.id ≠ after_id) →
        (merge_insert doc op_id ch (some after_id)).chars
          = doc.chars ++ [⟨op_id, ch, true⟩] := by
  have hfalse : (doc.chars.any fun c => c.id = op_id) = false := any_id_eq_false hfresh
  refine ⟨?_, ?_, ?_⟩
  · simp [merge_insert, hfalse]
  · intro after_id l1 anchor l2 hsplit ha h1
    have hmi : (merge_insert doc op_id ch (some after_id)).chars
        = insertAfter after_id ⟨op_id, ch, true⟩ doc.chars := by
      simp [merge_insert, hfalse]
    rw [hmi, hsplit]
    exact insertAfter_of_found after_id _ l1 l2 anchor ha h1
  · intro after_id h
    have hmi : (merge_insert doc op_id ch (some after_id)).chars
        = insertAfter after_id ⟨op_id, ch, true⟩ doc.chars := by
      simp [merge_insert, hfalse]
    rw [hmi]
    exact insertAfter_of_not_found after_id _ doc.chars h

theorem merge_insert_placement_witness :
    (merge_insert ⟨[⟨"a", "x", true⟩]⟩ "b" "y" (some "a")).chars
      = [] ++ ⟨"a", "x", true⟩ :: (⟨"b", "y", true⟩ : CRDTChar) :: [] :=
  (merge_insert_placement ⟨[⟨"a", "x", true⟩]⟩ "b" "y" (by decide)).2.1
    "a" [] ⟨"a", "x", true⟩ [] rfl rfl (by decide)

/-- C2: `merge_insert` is idempotent in its `opId`: repeating the same call
yields the same document state as calling it once, and a call whose `opId`
already belongs to some node (live or tombstoned) leaves the document
completely unchanged. -/
theorem merge_insert_idempotent (doc : CRDTDocument) (op_id ch : String)
    (after_id : Option String) :
    merge_insert (merge_insert doc op_id ch after_id) op_id ch after_id
      = merge_insert doc op_id ch after_id
    ∧ ((∃ c ∈ doc.chars, c.id = op_id) → merge_insert doc op_id ch after_id = doc) := by
  constructor
  · by_cases hp : (doc.chars.any fun c => c.id = op_id) = true
    · rw [merge_insert_of_present doc op_id ch after_id hp]
      exact merge_insert_of_present doc op_id ch after_id hp
    · have hfalse : (doc.chars.any fun c => c.id = op_id) = false := by
        simpa using hp
      have hmem : (⟨op_id, ch, true⟩ : CRDTChar)
          ∈ (merge_insert doc op_id ch after_id).chars := by
        cases after_id with
        | none => simp [merge_insert, hfalse]
        | some a =>
            have hmi : (merge_insert doc op_id ch (some a)).chars
                = insertAfter a ⟨op_id, ch, true⟩ doc.chars := by
              simp [merge_insert, hfalse]
            rw [hmi]
            exact insertAfter_mem a _ doc.chars
      exact merge_insert_of_present _ op_id ch after_id
        (any_id_eq_true ⟨_, hmem, rfl⟩)
  · intro h
    exact merge_insert_of_present doc op_id ch after_id (any_id_eq_true h)

theorem merge_insert_idempotent_witness :
    merge_insert ⟨[⟨"a", "x", true⟩]⟩ "a" "z" none = ⟨[⟨"a", "x", true⟩]⟩ :=
  (merge_insert_idempotent ⟨[⟨"a", "x", true⟩]⟩ "a" "z" none).2 (by decide)

/-- C3: tombstone invisibility — after deleting node `X`, the visible text
is the in-order concatenation of the non-tombstoned nodes' characters, which
no longer includes `X`'s contribution, while the snapshot still lists `X`
at its position with `visible = false`. -/
theorem merge_delete_tombstone_invisible (doc : CRDTDocument)
    (l1 l2 : List CRDTChar) (X : CRDTChar)
    (hsplit : doc.chars = l1 ++ X :: l2) (hfirst : ∀ c ∈ l1, c.id ≠ X.id) :
    get_text (merge_delete doc X.id)
      = String.join (((merge_delete doc X.id).chars.filter
          (fun c => c.visible)).map (fun c => c.char))
    ∧ get_text (merge_delete doc X.id)
      = String.join (((l1 ++ l2).filter (fun c => c.visible)).map (fun c => c.char))
    ∧ to_snapshot (merge_delete doc X.id)
      = l1.map (fun c => (c.id, c.char, c.visible))
          ++ (X.id, X.char, false) :: l2.map (fun c => (c.id, c.char, c.visible)) := by
  have hchars : (merge_delete doc X.id).chars
      = l1 ++ { X with visible := false } :: l2 := by
    show deleteFirst X.id doc.chars = _
    rw [hsplit]
    exact deleteFirst_of_found X.id l1 l2 X rfl hfirst
  refine ⟨rfl, ?_, ?_⟩
  · show String.join (((merge_delete doc X.id).chars.filter
        (fun c => c.visible)).map (fun c => c.char)) = _
    rw [hchars]
    simp [List.filter_append]
  · show ((merge_delete doc X.id).chars.map (fun c => (c.id, c.char, c.visible))) = _
    rw [hchars]
    simp

theorem merge_delete_tombstone_invisible_witness :
    ((⟨[⟨"a", "x", true⟩, ⟨"b", "y", true⟩]⟩ : CRDTDocument).chars
        = [⟨"a", "x", true⟩] ++ (⟨"b", "y", true⟩ : CRDTChar) :: [])
    ∧ to_snapshot (merge_delete ⟨[⟨"a", "x", true⟩, ⟨"b", "y", true⟩]⟩ "b")
        = [(⟨"a", "x", true⟩ : CRDTChar)].map (fun c => (c.id, c.char, c.visible))
            ++ ("b", "y", false)
              :: ([] : List CRDTChar).map (fun c => (c.id, c.char, c.visible)) :=
  ⟨rfl,
    (merge_delete_tombstone_invisible ⟨[⟨"a", "x", true⟩, ⟨"b", "y", true⟩]⟩
      [⟨"a", "x", true⟩] [] ⟨"b", "y", true⟩ rfl (by decide)).2.2⟩

/-- C4: a tombstoned node remains a valid insertion anchor forever:
inserting a fresh id with `afterId = A.id` where `A` is tombstoned places
the new node immediately after `A`'s position among all nodes. -/
theorem merge_insert_tombstoned_anchor (doc : CRDTDocument) (op_id ch : String)
    (l1 l2 : List CRDTChar) (A : CRDTChar)
    (hsplit : doc.chars = l1 ++ A :: l2) (_htomb : A.visible = false)
    (hfirst : ∀ c ∈ l1, c.id ≠ A.id)
    (hfresh : ∀ c ∈ doc.chars, c.id ≠ op_id) :
    (merge_insert doc op_id ch (some A.id)).chars
      = l1 ++ A :: (⟨op_id, ch, true⟩ : CRDTChar) :: l2 := by
  have hfalse := any_id_eq_false hfresh
  have hmi : (merge_insert doc op_id ch (some A.id)).chars
      = insertAfter A.id ⟨op_id, ch, true⟩ doc.chars := by
    simp [merge_insert, hfalse]
  rw [hmi, hsplit]
  exact insertAfter_of_found A.id _ l1 l2 A rfl hfirst

theorem merge_insert_tombstoned_anchor_witness :
    ((⟨[⟨"a", "x", false⟩]⟩ : CRDTDocument).chars
        = [] ++ (⟨"a", "x", false⟩ : CRDTChar) :: [])
    ∧ (⟨"a", "x", false⟩ : CRDTChar).visible = false
    ∧ (merge_insert ⟨[⟨"a", "x", false⟩]⟩ "b" "y" (some "a")).chars
        = [] ++ ⟨"a", "x", false⟩ :: (⟨"b", "y", true⟩ : CRDTChar) :: [] :=
  ⟨rfl, rfl,
    merge_insert_tombstoned_anchor ⟨[⟨"a", "x", false⟩]⟩ "b" "y"
      [] [] ⟨"a", "x", false⟩ rfl rfl (by decide) (by decide)⟩

/-- C8: deleting an id that no node carries is a silent no-op: the document
state and hence its snapshot are completely unchanged. -/
theorem merge_delete_unknown_noop (doc : CRDTDocument) (op_id : String)
    (h : ∀ c ∈ doc.chars, c.id ≠ op_id) :
    merge_delete doc op_id = doc
    ∧ to_snapshot (merge_delete doc op_id) = to_snapshot doc := by
  have h1 : merge_delete doc op_id = doc := by
    show (⟨deleteFirst op_id doc.chars⟩ : CRDTDocument) = doc
    rw [deleteFirst_of_not_found op_id doc.chars h]
  exact ⟨h1, by rw [h1]⟩

theorem merge_delete_unknown_noop_witness :
    merge_delete ⟨[⟨"a", "x", true⟩]⟩ "never-seen-id" = ⟨[⟨"a", "x", true⟩]⟩ :=
  (merge_delete_unknown_noop ⟨[⟨"a", "x", true⟩]⟩ "never-seen-id" (by decide)).1

/-- C10: `merge_delete` changes at most the visible flag of the first node
whose id matches — order, ids, characters and all other flags are
untouched — does nothing when no id matches, and is idempotent. -/
theorem merge_delete_frame (doc : CRDTDocument) (op_id : String) :
    merge_delete (merge_delete doc op_id) op_id = merge_delete doc op_id
    ∧ ((∀ c ∈ doc.chars, c.id ≠ op_id) → merge_delete doc op_id = doc)
    ∧ ∀ l1 x l2, doc.chars = l1 ++ x :: l2 → x.id = op_id →
        (∀ c ∈ l1, c.id ≠ op_id) →
        (merge_delete doc op_id).chars = l1 ++ { x with visible := false } :: l2 := by
  refine ⟨?_, ?_, ?_⟩
  · show (⟨deleteFirst op_id (deleteFirst op_id doc.chars)⟩ : CRDTDocument)
        = merge_delete doc op_id
    rw [deleteFirst_idem]
    rfl
  · intro h
    show (⟨deleteFirst op_id doc.chars⟩ : CRDTDocument) = doc
    rw [deleteFirst_of_not_found op_id doc.chars h]
  · intro l1 x l2 hsplit hx h1
    show deleteFirst op_id doc.chars = _
    rw [hsplit]
    exact deleteFirst_of_found op_id l1 l2 x hx h1

theorem merge_delete_frame_witness :
    ((⟨[⟨"a", "x", true⟩]⟩ : CRDTDocument).chars
        = [] ++ (⟨"a", "x", true⟩ : CRDTChar) :: [])
    ∧ (merge_delete ⟨[⟨"a", "x", true⟩]⟩ "a").chars
        = [] ++ ⟨"a", "x", false⟩ :: [] :=
  ⟨rfl,
    (merge_delete_frame ⟨[⟨"a", "x", true⟩]⟩ "a").2.2
      [] ⟨"a", "x", true⟩ [] rfl rfl (by decide)⟩

/-- C5: later operations never reorder or remove existing nodes: the
(id, char) projection of the sequence before any further operations is a
sublist of the projection afterwards — so the relative order of any two
existing nodes is unchanged — and every existing id is still present. -/
theorem order_preservation (doc : CRDTDocument) (ops : List DocOp) :
    List.Sublist (doc.chars.map (fun c => (c.id, c.char)))
      ((applyOps doc ops).chars.map (fun c => (c.id, c.char)))
    ∧ ∀ i ∈ docIds doc, i ∈ docIds (applyOps doc ops) := by
  refine ⟨applyOps_map_sublist (fun c => (c.id, c.char)) (fun c => rfl) doc ops, ?_⟩
  intro i hi
  exact (applyOps_map_sublist (fun c => c.id) (fun c => rfl) doc ops).subset hi

theorem order_preservation_witness :
    "a" ∈ docIds (applyOps ⟨[⟨"a", "x", true⟩]⟩
      [DocOp.ins "b" "y" (some "a"), DocOp.del "a"]) :=
  (order_preservation ⟨[⟨"a", "x", true⟩]⟩
    [DocOp.ins "b" "y" (some "a"), DocOp.del "a"]).2 "a" (by decide)

/-- C6: in every state reachable from the empty document the node ids are
pairwise distinct; under any further operations no node is ever removed,
and a tombstone, once set, never reverts to visible. -/
theorem reachable_doc_invariants (ops : List DocOp) :
    (docIds (applyOps CRDTDocument.empty ops)).Nodup
    ∧ (∀ more, List.Sublist (docIds (applyOps CRDTDocument.empty ops))
        (docIds (applyOps (applyOps CRDTDocument.empty ops) more)))
    ∧ ∀ more c, c ∈ (applyOps CRDTDocument.empty ops).chars → c.visible = false →
        ∀ x ∈ (applyOps (applyOps CRDTDocument.empty ops) more).chars,
          x.id = c.id → x.visible = false := by
  have hnodup : (docIds (applyOps CRDTDocument.empty ops)).Nodup :=
    applyOps_nodup CRDTDocument.empty ops (by simp [docIds, CRDTDocument.empty])
  refine ⟨hnodup, ?_, ?_⟩
  · intro more
    exact applyOps_map_sublist (fun c => c.id) (fun c => rfl) _ more
  · intro more c hc hv
    have hnodup' : ((applyOps CRDTDocument.empty ops).chars.map
        (fun c => c.id)).Nodup := hnodup
    have hall : ∀ x ∈ (applyOps CRDTDocument.empty ops).chars,
        x.id = c.id → x.visible = false := by
      intro x hx hxid
      have hxc : x = c := List.inj_on_of_nodup_map hnodup' hx hc hxid
      rw [hxc]; exact hv
    have ht : c.id ∈ docIds (applyOps CRDTDocument.empty ops) :=
      List.mem_map.mpr ⟨c, hc, rfl⟩
    exact (applyOps_tomb (applyOps CRDTDocument.empty ops) more c.id ht hall).2

theorem reachable_doc_invariants_witness :
    (⟨"a", "x", false⟩ : CRDTChar) ∈ (applyOps CRDTDocument.empty
        [DocOp.ins "a" "x" none, DocOp.del "a"]).chars
    ∧ (⟨"a", "x", false⟩ : CRDTChar).visible = false
    ∧ (⟨"a", "x", false⟩ : CRDTChar) ∈ (applyOps (applyOps CRDTDocument.empty
        [DocOp.ins "a" "x" none, DocOp.del "a"]) [DocOp.ins "b" "y" (some "a")]).chars
    ∧ (⟨"a", "x", false⟩ : CRDTChar).visible = false :=
  ⟨by decide, rfl, by decide,
    (reachable_doc_invariants [DocOp.ins "a" "x" none, DocOp.del "a"]).2.2
      [DocOp.ins "b" "y" (some "a")] ⟨"a", "x", false⟩ (by decide) rfl
      ⟨"a", "x", false⟩ (by decide) rfl⟩

/-- C7: what `broadcast` actually does when one delivery fails. With live
socket 1 (client "c1") and dead socket 2 (client "c2"), broadcasting an
event delivers it to socket 1, detaches socket 2 and follows with a roster
broadcast — but `broadcast` calls `disconnect` with the empty client id
(line 109), so client "c2"'s presence entry survives and the roster it
broadcasts still lists "c2", contrary to the claimed presence removal. -/
theorem broadcast_dead_socket_presence_bug :
    broadcast (fun ws => ws == 2)
      ⟨⟨[]⟩, [1, 2], [("c1", ⟨"alice", 0⟩), ("c2", ⟨"bob", 0⟩)]⟩
      (OutMsg.deleteOp "x" "c1")
      = (⟨⟨[]⟩, [1], [("c1", ⟨"alice", 0⟩), ("c2", ⟨"bob", 0⟩)]⟩,
         [(1, OutMsg.deleteOp "x" "c1"),
          (1, OutMsg.userList [⟨"c1", "alice", 0⟩, ⟨"c2", "bob", 0⟩])]) := by
  rfl

/-- C9: an inbound message whose type is none of insert/delete/cursor makes
the server send `{type: "error", msg: "unknown message type"}` to the
originating connection only, leaves the whole document entry (document,
sockets and presence) unchanged, and the receive loop continues. -/
theorem unknown_type_error_reply (dead : Nat → Bool) (st : DocState)
    (websocket : Nat) (client_id username server_id mtype : String)
    (h : dead websocket = false) :
    handleMessage dead st websocket client_id username server_id (InMsg.otherMsg mtype)
      = (st, [(websocket, OutMsg.errorMsg "unknown message type")], true) := by
  simp [handleMessage, h]

theorem unknown_type_error_reply_witness :
    handleMessage (fun _ => false) ⟨⟨[]⟩, [1], [("c1", ⟨"alice", 0⟩)]⟩ 1
        "c1" "alice" "s1" (InMsg.otherMsg "frobnicate")
      = (⟨⟨[]⟩, [1], [("c1", ⟨"alice", 0⟩)]⟩,
         [(1, OutMsg.errorMsg "unknown message type")], true) :=
  unknown_type_error_reply (fun _ => false) ⟨⟨[]⟩, [1], [("c1", ⟨"alice", 0⟩)]⟩ 1
    "c1" "alice" "s1" "frobnicate" rfl
